import Mathlib

/-! Video converter worker: chunk merge and task handler.

A shallow embedding of `golang/internal/converter/task.go`.

* Pure code (`getNumberFromFile` and the library functions it calls) is
  embedded as Lean functions over strings.
* Stateful code (`mergeChunksFromDir`, `process`, `LogError`, `Handle`) is
  embedded by explicit state passing over `State`: the disk, the open file
  handles, the ledger tables and the chronological list of calls made to the
  operating system, the transcoder and the ledger (`trace`).
* Everything the program cannot decide by itself (whether a system call fails,
  what the directory listing holds, what the transcoder does, how a payload
  decodes) is read from an `Env`.

Go's `int` is taken to be 64 bits wide (the size on every 64-bit platform).
A path is not a file: the disk resolves every path to a directory entry and
every entry to the file it holds, so that two spellings of a path, a symbolic
link or a hard link lead to one and the same file.
-/

namespace Converter

/-! ## Library functions used by `getNumberFromFile` -/

/-- Unix `os.IsPathSeparator`. -/
def isSeparator (c : Char) : Bool := c == '/'

/-- Unix `filepath.Base`: the last element of the path. Trailing separators are
removed first; the empty path gives ".", a path of separators only gives "/". -/
def Base (path : String) : String :=
  if path = "" then "."
  else
    let stripped := (path.toList.reverse.dropWhile isSeparator).reverse
    let last := (stripped.reverse.takeWhile (fun c => !isSeparator c)).reverse
    if last = [] then "/" else String.mk last

/-- The call `regexp.MustCompile("\\d+").FindString`: the leftmost match of one
or more ASCII digits, taken greedily; the empty string when nothing matches. -/
def FindString : List Char → List Char
  | [] => []
  | c :: cs => if c.isDigit then c :: cs.takeWhile Char.isDigit else FindString cs

/-- Value of one ASCII digit. -/
def digitValue (c : Char) : Nat := c.toNat - 48

/-- The accumulation loop of `strconv.Atoi`: `n = n*10 + digit`, left to right. -/
def parseDigits (ds : List Char) : Nat := ds.foldl (fun n c => n * 10 + digitValue c) 0

/-- Largest value of a 64-bit `int`. -/
def maxInt : Nat := 2 ^ 63 - 1

/-- The function `strconv.Atoi` on a 64-bit platform; `none` stands for a
non-nil error. An optional sign is followed by at least one ASCII digit
(otherwise `ErrSyntax`), and the value must fit in an `int` (otherwise
`ErrRange`). -/
def Atoi (s : List Char) : Option Int :=
  let neg := s.head? = some '-'
  let ds := if s.head? = some '-' ∨ s.head? = some '+' then s.tail else s
  if ds = [] ∨ !ds.all Char.isDigit then none
  else
    let n := parseDigits ds
    if neg then (if n ≤ maxInt + 1 then some (-(n : Int)) else none)
    else (if n ≤ maxInt then some (n : Int) else none)

/-- The method `getNumberFromFile` (task.go:126-138): the number from the file
name, `-1` in case of error. -/
def getNumberFromFile (filename : String) : Int :=
  let str := FindString (Base filename).toList
  match Atoi str with
  | none => -1
  | some num => num

/-! ## `filepath.Join` -/

/-- The elements of a path between its separators. -/
def splitElems : List Char → List (List Char)
  | [] => [[]]
  | c :: cs =>
    if isSeparator c then [] :: splitElems cs
    else
      match splitElems cs with
      | [] => [[c]]
      | e :: es => (c :: e) :: es

/-- One element processed by `filepath.Clean`; `out` holds the elements kept so
far, last one first. Empty and "." elements are dropped; ".." removes the last
kept element when there is one that is not itself "..", is kept when the path
is not rooted, and is dropped at the root. -/
def cleanStep (rooted : Bool) (out : List (List Char)) (elem : List Char) : List (List Char) :=
  if elem = [] ∨ elem = ['.'] then out
  else if elem = ['.', '.'] then
    match out with
    | [] => if rooted then [] else [elem]
    | top :: rest => if top = ['.', '.'] then elem :: out else rest
  else elem :: out

/-- Unix `filepath.Clean`, element by element. -/
def Clean (path : String) : String :=
  if path = "" then "."
  else
    let rooted := path.toList.head? = some '/'
    let out := (splitElems path.toList).foldl (cleanStep rooted) []
    let body := String.intercalate "/" (out.reverse.map String.mk)
    if rooted then "/" ++ body else if body = "" then "." else body

/-- Unix `filepath.Join`: leading empty elements are ignored, the rest is joined
with separators and cleaned; no non-empty element gives the empty string. -/
def Join (elem : List String) : String :=
  match elem.dropWhile (fun e => e = "") with
  | [] => ""
  | es => Clean (String.intercalate "/" es)

/-- Go's conversion `string(i)` of an integer: the UTF-8 text of the code point
`i`, or U+FFFD when `i` is no valid code point. -/
def runeString (i : Int) : String :=
  if 0 ≤ i ∧ Nat.isValidChar i.toNat then String.singleton (Char.ofNat i.toNat) else "�"

/-! ## `sort.Slice` -/

/-- Inner loop of the library's `insertionSortLessFunc`: the new element `x`
moves left past every element it is `less` than. `done` is the sorted part of
the slice, last element first. -/
def insertLast {α : Type} (less : α → α → Bool) (x : α) : List α → List α
  | [] => [x]
  | y :: rest => if less x y then y :: insertLast less x rest else x :: y :: rest

/-- The library's `insertionSortLessFunc` over a whole slice. -/
def insertionSortLessFunc {α : Type} (less : α → α → Bool) (data : List α) : List α :=
  (data.foldl (fun done x => insertLast less x done) []).reverse

/-- The function `sort.Slice`: slices of at most 12 elements are sorted by
insertion sort; longer ones by the library's pattern-defeating quicksort, which
is taken as the parameter `pdqsort`. -/
def sortSlice {α : Type} (pdqsort : (α → α → Bool) → List α → List α)
    (less : α → α → Bool) (x : List α) : List α :=
  if x.length ≤ 12 then insertionSortLessFunc less x else pdqsort less x

/-- The comparison passed to `sort.Slice` in `mergeChunksFromDir` (task.go:150-152). -/
def chunkLess (a b : String) : Bool :=
  decide (getNumberFromFile a < getNumberFromFile b)

/-! ## Data model -/

/-- The struct `VideoTask`. -/
structure VideoTask where
  VideoId : Int
  Path : String
deriving DecidableEq

/-- The map `errData` built by `LogError`: an Error Record. The `time` entry
(`time.Now()`) is not modelled. -/
structure ErrorRecord where
  video_id : Int
  message : String
  details : String
deriving DecidableEq

/-- Levels of the `slog` calls. -/
inductive Level where
  | info
  | warn
  | error
deriving DecidableEq

/-- A call made by the program, with its arguments. A call is recorded whether
it succeeds or fails. Of a `slog` call only the level and message are kept. -/
inductive Event where
  | isProcessed (videoId : Int)
  | markProcessed (videoId : Int)
  | registerError (errData : ErrorRecord)
  | glob (pattern : String)
  | create (name : String)
  | openFile (name : String)
  | readFrom (dst src : String)
  | close (name : String)
  | mkdirAll (path : String)
  | command (name : String) (args : List String)
  | remove (name : String)
  | log (level : Level) (msg : String)
deriving DecidableEq

/-- An open `*os.File`: `os.Create` gives a writable one, `os.Open` a read-only
one. -/
structure FileHandle where
  name : String
  writable : Bool
deriving DecidableEq

/-- A regular file on disk, whatever names lead to it. -/
abbrev FileId := Nat

/-- The disk.
* `entryOf`: the directory entry a path leads to, once the working directory,
  `.`, `..`, repeated separators and symbolic links are resolved; every
  spelling of an entry gives the same value;
* `links`: the file each directory entry holds (the first pair of an entry
  counts). Several entries may hold one file (hard links); an entry that holds
  no regular file (nothing, or a directory) has no pair;
* `data`: the bytes of each file. -/
structure Disk where
  entryOf : String → String
  links : List (String × FileId)
  data : FileId → String

/-- What running an external command gives back: its combined output, its
error (if any) and the disk it leaves behind. -/
structure CommandResult where
  output : String
  err : Option String
  disk : Disk

/-- The world the handler runs in. -/
structure State where
  disk : Disk
  handles : List FileHandle
  processed : List Int
  errors : List ErrorRecord
  trace : List Event

/-- Everything decided outside the program. An error is the text of its
`Error()`.
* `unmarshal`: `json.Unmarshal` into a zero `VideoTask`: the task as the decoder
  leaves it, and the error if any;
* `glob`: result of `filepath.Glob` for a pattern;
* `pdqsort`: the library sort used by `sort.Slice` on more than 12 elements;
* `createErr`, `openErr`, `mkdirAllErr`, `removeErr`: the error of `os.Create`,
  `os.Open`, `os.MkdirAll`, `os.Remove` on a path, if it fails;
* `copyErr`: for a chunk whose copy fails, the number of bytes copied before
  the failure and the error;
* `runCommand`: `exec.Command(name, args...).CombinedOutput()`;
* `markProcessedErr`, `registerErrorFails`: failures of the ledger writes. -/
structure Env where
  unmarshal : String → VideoTask × Option String
  glob : String → Except String (List String)
  pdqsort : (String → String → Bool) → List String → List String
  createErr : String → Option String
  openErr : String → Option String
  copyErr : String → Option (Nat × String)
  mkdirAllErr : String → Option String
  runCommand : String → List String → Disk → CommandResult
  removeErr : String → Option String
  markProcessedErr : Int → Option String
  registerErrorFails : ErrorRecord → Bool

/-- Record a call. -/
def State.emit (s : State) (e : Event) : State :=
  { s with trace := s.trace ++ [e] }

/-- The regular file a path leads to, if any. -/
def Disk.fileAt (d : Disk) (path : String) : Option FileId :=
  d.links.lookup (d.entryOf path)

/-- The bytes read through a path. -/
def Disk.read (d : Disk) (path : String) : Option String :=
  (d.fileAt path).map d.data

/-- A file number that no entry holds. -/
def Disk.freshId (d : Disk) : FileId :=
  (d.links.map Prod.snd).foldr max 0 + 1

/-- Empty one file. -/
def Disk.truncate (d : Disk) (file : FileId) : Disk :=
  { d with data := fun j => if j = file then "" else d.data j }

/-- Effect of a successful `os.Create(path)` and the file the returned handle
is open on: the file the path leads to is truncated; when the path leads to no
file, a new empty file is put in its entry. -/
def Disk.create (d : Disk) (path : String) : Disk × FileId :=
  match d.fileAt path with
  | some file => (d.truncate file, file)
  | none =>
    (({ d with links := (d.entryOf path, d.freshId) :: d.links } : Disk).truncate d.freshId,
      d.freshId)

/-- Bytes written at the end of one file. -/
def Disk.append (d : Disk) (file : FileId) (bytes : String) : Disk :=
  { d with data := fun j => if j = file then d.data file ++ bytes else d.data j }

/-- Effect of a successful `os.Remove(path)`: the entry the path leads to is
emptied. The file stays reachable through its other entries, if it has any. -/
def Disk.unlink (d : Disk) (path : String) : Disk :=
  { d with links := d.links.filter (fun link => link.1 != d.entryOf path) }

/-- The calls made between two states of one run. -/
def newEvents (before after : State) : List Event :=
  after.trace.drop before.trace.length

/-! ## The ledger -/

/-- Modelled from the spec: `IsProcessed`, absent from the sources.
"true iff a processed record exists for that id". -/
def IsProcessed (videoId : Int) (s : State) : Bool × State :=
  (decide (videoId ∈ s.processed), s.emit (.isProcessed videoId))

/-- Modelled from the spec: `MarkProcessed`, absent from the sources.
"inserts (or upserts) a processed record. Fails with PersistenceError on
connectivity or constraint failure"; at most one record per video id. -/
def MarkProcessed (env : Env) (videoId : Int) (s : State) : Option String × State :=
  let s := s.emit (.markProcessed videoId)
  match env.markProcessedErr videoId with
  | some err => (some err, s)
  | none =>
    (none, { s with processed := if videoId ∈ s.processed then s.processed
                                 else videoId :: s.processed })

/-- Modelled from the spec: `RegisterError`, absent from the sources.
"appends an error record; failure to append is itself only logged, never
escalated". -/
def RegisterError (env : Env) (errData : ErrorRecord) (s : State) : State :=
  let s := s.emit (.registerError errData)
  if env.registerErrorFails errData then s
  else { s with errors := s.errors ++ [errData] }

/-! ## The converter -/

/-- The method `LogError` (task.go:63-76). -/
def LogError (env : Env) (thread : VideoTask) (message : String) (err : String)
    (s : State) : State :=
  let errData : ErrorRecord :=
    { video_id := thread.VideoId, message := message, details := err }
  let s := s.emit (.log .error "Processing error")
  RegisterError env errData s

/-- The call `out.ReadFrom(in)` (task.go:168): the bytes of the chunk are
appended to the file the handle `out` is open on. A path that leads to no
regular file (a directory) cannot be read. When the copy fails, the bytes
copied before the failure stay in the output. When the chunk is the very file
`out` is open on and that file already holds bytes, the real copy never reaches
the end of its input (every pass reads what the pass before wrote) and ends
only when a write fails: the model returns that failure at once and leaves the
content as it is. -/
def ReadFrom (env : Env) (outFile : String) (out : FileId) (chunk : String) (s : State) :
    Option String × State :=
  let s := s.emit (.readFrom outFile chunk)
  match s.disk.fileAt chunk with
  | none => (some ("read " ++ chunk ++ ": is a directory"), s)
  | some src =>
    let data := s.disk.data src
    match env.copyErr chunk with
    | some (n, err) => (some err, { s with disk := s.disk.append out (data.take n) })
    | none =>
      if src = out ∧ data ≠ "" then
        (some ("write " ++ outFile ++ ": no space left on device"), s)
      else
        (none, { s with disk := s.disk.append out data })

/-- The loop of `mergeChunksFromDir` (task.go:162-174); `out` is the file the
output handle is open on. The handle `in` is closed at the end of an iteration
only. -/
def copyChunks (env : Env) (outFile : String) (out : FileId) :
    List String → State → Option String × State
  | [], s => (none, s)
  | chunk :: rest, s =>
    let s := s.emit (.openFile chunk)
    match env.openErr chunk with
    | some err => (some ("failed to open chunk: " ++ err), s)
    | none =>
      let s := { s with handles := ⟨chunk, false⟩ :: s.handles }
      match ReadFrom env outFile out chunk s with
      | (some err, s) => (some ("failed to write chunk " ++ chunk ++ ": " ++ err), s)
      | (none, s) =>
        let s := s.emit (.close chunk)
        let s := { s with handles := s.handles.erase ⟨chunk, false⟩ }
        copyChunks env outFile out rest s

/-- The method `mergeChunksFromDir` (task.go:140-177). `os.Create` truncates the
file the output path leads to; the deferred `out.Close()` runs on every return
that follows it. -/
def mergeChunksFromDir (env : Env) (inDir outFile : String) (s : State) :
    Option String × State :=
  let pattern := "*.chunk"
  let s := s.emit (.glob (Join [inDir, pattern]))
  match env.glob (Join [inDir, pattern]) with
  | .error err => (some ("failed to find any chunk: " ++ err), s)
  | .ok chunks =>
    let chunks := sortSlice env.pdqsort chunkLess chunks
    let s := s.emit (.create outFile)
    match env.createErr outFile with
    | some err => (some ("failed to create a file: " ++ err), s)
    | none =>
      let created := s.disk.create outFile
      let s := { s with disk := created.1, handles := ⟨outFile, true⟩ :: s.handles }
      let (err, s) := copyChunks env outFile created.2 chunks s
      let s := s.emit (.close outFile)
      (err, { s with handles := s.handles.erase ⟨outFile, true⟩ })

/-- Arguments of the transcoder invocation (task.go:103-104). -/
def ffmpegArgs (thread : VideoTask) (convertedFileName mergedFileName : String) : List String :=
  ["-i", Join [thread.Path, mergedFileName], "-f", "dash",
   Join [Join [thread.Path, "mpeg-dash"], convertedFileName]]

/-- The method `process` (task.go:78-123). -/
def process (env : Env) (thread : VideoTask) (convertedFileName mergedFileName : String)
    (s : State) : Option String × State :=
  let mergedFile := Join [thread.Path, mergedFileName]
  let convertedFilePathFolder := Join [thread.Path, "mpeg-dash"]
  let s := s.emit (.log .info "Merging chunks")
  match mergeChunksFromDir env thread.Path mergedFile s with
  | (some err, s) =>
    let errMessage := "Failed to merge chunks for VideoId=" ++ runeString thread.VideoId
    (some err, LogError env thread errMessage err s)
  | (none, s) =>
    let s := s.emit (.mkdirAll convertedFilePathFolder)
    match env.mkdirAllErr convertedFilePathFolder with
    | some err =>
      (some err, LogError env thread "Failed to create directory for mpeg-dash files" err s)
    | none =>
      let s := s.emit (.log .info "Converting video")
      let args := ffmpegArgs thread convertedFileName mergedFileName
      let s := s.emit (.command "ffmpeg" args)
      let r := env.runCommand "ffmpeg" args s.disk
      let s := { s with disk := r.disk }
      match r.err with
      | some err =>
        (some err, LogError env thread
          ("Failed to convert video to mpeg-dash format [outstream: " ++ r.output ++ "]") err s)
      | none =>
        let s := s.emit (.log .info "Video Successfully converted to mpeg-dash")
        let s := s.emit (.log .info "Deleting non-converted video")
        let s := s.emit (.remove mergedFile)
        match env.removeErr mergedFile with
        | some err =>
          (some err, LogError env thread
            ("Failed to remove non-converted file for VideoId=" ++ runeString thread.VideoId)
            err s)
        | none => (none, { s with disk := s.disk.unlink mergedFile })

/-- The method `Handle` (task.go:34-61). -/
def Handle (env : Env) (msgBytes : String) (convertedFileName mergedFileName : String)
    (s : State) : State :=
  let (thread, err) := env.unmarshal msgBytes
  match err with
  | some err => LogError env thread "Failed to unmarshal task" err s
  | none =>
    let (done, s) := IsProcessed thread.VideoId s
    if done then s.emit (.log .warn "Video was already processed")
    else
      match process env thread convertedFileName mergedFileName s with
      | (some err, s) =>
        LogError env thread
          ("Failed to process video with id=" ++ runeString thread.VideoId) err s
      | (none, s) =>
        match MarkProcessed env thread.VideoId s with
        | (some err, s) =>
          LogError env thread
            ("Failed to mark video as processed video_id=" ++ runeString thread.VideoId) err s
        | (none, s) => s.emit (.log .info "Video was succesfully processed")

/-! ## Vocabulary of the properties -/

/-- The name contains a decimal digit. -/
def hasDigit (s : String) : Bool := s.toList.any Char.isDigit

/-- The first run of decimal digits of a name: everything before the first
digit is skipped, then digits are taken as long as they last. -/
def firstDigitRun (s : String) : List Char :=
  (s.toList.dropWhile (fun c => !c.isDigit)).takeWhile Char.isDigit

/-- The number a run of decimal digits denotes (most significant digit first). -/
def decimalValue (ds : List Char) : Nat :=
  Nat.ofDigits 10 (ds.reverse.map digitValue)

/-- What the library promises of its sort, for a comparison that orders by an
integer key: the result is a rearrangement of the input in ascending key
order. Nothing is promised about the order of equal keys. -/
def SortContract (pdqsort : (String → String → Bool) → List String → List String) : Prop :=
  ∀ (key : String → Int) (x : List String),
    (pdqsort (fun a b => decide (key a < key b)) x).Perm x ∧
    (pdqsort (fun a b => decide (key a < key b)) x).Pairwise (fun a b => key a ≤ key b)

/-- Calls that `mergeChunksFromDir` makes. -/
def Event.isMergeCall : Event → Bool
  | .glob _ => true
  | .create _ => true
  | .openFile _ => true
  | .readFrom _ _ => true
  | .close _ => true
  | _ => false

/-- A `RegisterError` call. -/
def Event.isRegisterError : Event → Bool
  | .registerError _ => true
  | _ => false

/-- A `MarkProcessed` call. -/
def Event.isMarkProcessed : Event → Bool
  | .markProcessed _ => true
  | _ => false

/-- The chunks copied into the output, in the order of the copies. -/
def writeOrder (evs : List Event) : List String :=
  evs.filterMap fun e =>
    match e with
    | .readFrom _ src => some src
    | _ => none

/-- The calls of a loop that copies every chunk of `order`. -/
def copyCalls (outFile : String) (order : List String) : List Event :=
  order.flatMap fun c => [.openFile c, .readFrom outFile c, .close c]

/-- The calls of a merge in which nothing fails. -/
def mergeCalls (pattern outFile : String) (order : List String) : List Event :=
  [.glob pattern, .create outFile] ++ copyCalls outFile order ++ [.close outFile]

/-- The merge stage of a run of `Handle` from state `s`: the call of
`mergeChunksFromDir` as `process` makes it, after the `IsProcessed` query and
the first log line. -/
def mergeStage (env : Env) (thread : VideoTask) (mergedFileName : String) (s : State) :
    Option String × State :=
  mergeChunksFromDir env thread.Path (Join [thread.Path, mergedFileName])
    ((IsProcessed thread.VideoId s).2.emit (.log .info "Merging chunks"))

/-- One entry per listed path, holding the files numbered from `n` on. -/
def numbered : Nat → List (String × String) → List (String × FileId)
  | _, [] => []
  | n, (path, _) :: rest => (path, n) :: numbered (n + 1) rest

/-- A disk without links, given by the clean paths of its files and their
bytes. Two paths lead to the same entry exactly when `filepath.Clean` makes
them equal: the working directory lies outside the listed directories, so that
no path comes back into them through `..`. -/
def diskOf (l : List (String × String)) : Disk :=
  { entryOf := Clean
    links := numbered 0 l
    data := fun file => ((l.get? file).map Prod.snd).getD "" }

/-- A fresh state over a given disk: nothing open, empty ledger, no call made. -/
def stateOf (disk : Disk) : State :=
  { disk := disk, handles := [], processed := [], errors := [], trace := [] }

/-- An environment in which no call fails: `listing` is what the glob gives for
`pattern`, the transcoder exits with status 0 and leaves the disk as it is. -/
def calmEnv (decode : String → VideoTask × Option String) (pattern : String)
    (listing : List String) : Env :=
  { unmarshal := decode
    glob := fun p => if p = pattern then .ok listing else .ok []
    pdqsort := insertionSortLessFunc
    createErr := fun _ => none
    openErr := fun _ => none
    copyErr := fun _ => none
    mkdirAllErr := fun _ => none
    runCommand := fun _ _ disk => { output := "", err := none, disk := disk }
    removeErr := fun _ => none
    markProcessedErr := fun _ => none
    registerErrorFails := fun _ => false }

/-- The payload of `main.go`. -/
def mainPayload : String := "\x7b\"video_id\": 2, \"path\": \"mediatest/media/uploads/2\"\x7d"

/-- A payload whose `video_id` is not a number. -/
def badPayload : String :=
  "\x7b\"video_id\": \"two\", \"path\": \"mediatest/media/uploads/2\"\x7d"

/-- How `json.Unmarshal` decodes the two payloads above: the first in full, the
second with a type error on `video_id` (the decoder still fills `path`). -/
def demoDecode (msg : String) : VideoTask × Option String :=
  if msg = mainPayload then (⟨2, "mediatest/media/uploads/2"⟩, none)
  else if msg = badPayload then
    (⟨0, "mediatest/media/uploads/2"⟩,
      some "json: cannot unmarshal string into Go struct field VideoTask.video_id of type int")
  else (⟨0, ""⟩, some "unexpected end of JSON input")

/-- The task of `main.go`. -/
def mainTask : VideoTask := ⟨2, "mediatest/media/uploads/2"⟩

/-- The upload directory of video 2 holds `0.chunk` and `1.chunk`. -/
def demoEnv : Env :=
  calmEnv demoDecode "mediatest/media/uploads/2/*.chunk"
    ["mediatest/media/uploads/2/0.chunk", "mediatest/media/uploads/2/1.chunk"]

/-- The two chunks hold "AA" and "BB". -/
def demoState : State :=
  stateOf (diskOf [("mediatest/media/uploads/2/0.chunk", "AA"),
    ("mediatest/media/uploads/2/1.chunk", "BB")])

/-- The same world once video 2 is in the ledger. -/
def doneState : State := { demoState with processed := [2] }

/-- The same directory, where the merged file cannot be created. -/
def createFailEnv : Env := { demoEnv with createErr := fun _ => some "permission denied" }

/-- The same directory without any chunk. -/
def emptyEnv : Env := calmEnv demoDecode "mediatest/media/uploads/2/*.chunk" []

/-- A directory with three numbered parts, listed in name order as the glob
returns them. -/
def partsEnv : Env :=
  calmEnv demoDecode "uploads/7/*.chunk"
    ["uploads/7/part1.chunk", "uploads/7/part10.chunk", "uploads/7/part2.chunk"]

/-- Contents of the three parts. -/
def partsState : State :=
  stateOf (diskOf [("uploads/7/part1.chunk", "one"), ("uploads/7/part10.chunk", "ten"),
    ("uploads/7/part2.chunk", "two")])

/-- A directory with two numbered chunks and one without a number. -/
def mixedEnv : Env :=
  calmEnv demoDecode "uploads/7/*.chunk"
    ["uploads/7/12.chunk", "uploads/7/3.chunk", "uploads/7/intro.chunk"]

/-- Contents of the mixed directory. -/
def mixedState : State :=
  stateOf (diskOf [("uploads/7/12.chunk", "c"), ("uploads/7/3.chunk", "b"),
    ("uploads/7/intro.chunk", "a")])

/-- A directory with a chunk numbered beyond the range of `int` and a chunk
without a number. -/
def overflowEnv : Env :=
  calmEnv demoDecode "uploads/7/*.chunk"
    ["uploads/7/99999999999999999999.chunk", "uploads/7/a.chunk"]

/-- Contents of that directory. -/
def overflowState : State :=
  stateOf (diskOf [("uploads/7/99999999999999999999.chunk", "X"),
    ("uploads/7/a.chunk", "Y")])

/-- The upload directory of video 2 where `merged-test.mp4` is there already, as
a second name (hard link) of the file of `0.chunk`. -/
def linkedState : State :=
  stateOf
    { entryOf := Clean
      links := [("mediatest/media/uploads/2/0.chunk", 0),
        ("mediatest/media/uploads/2/1.chunk", 1),
        ("mediatest/media/uploads/2/merged-test.mp4", 0)]
      data := fun file => if file = 0 then "AA" else if file = 1 then "BB" else "" }

/-- A directory in which `1.chunk` is a sub-directory: the glob lists it, it
can be opened, it holds no bytes to read. -/
def subdirState : State :=
  stateOf (diskOf [("mediatest/media/uploads/2/0.chunk", "AA")])

/-! ## Lemmas -/

/-- The leftmost greedy match is the first digit run. -/
theorem FindString_eq (l : List Char) :
    FindString l = (l.dropWhile (fun c => !c.isDigit)).takeWhile Char.isDigit := by
  induction l with
  | nil => rfl
  | cons c cs ih =>
    by_cases h : c.isDigit = true
    · simp [FindString, h, List.dropWhile, List.takeWhile]
    · simp [FindString, h, List.dropWhile, ih]

/-- A match holds digits only. -/
theorem FindString_all_digits (l : List Char) : (FindString l).all Char.isDigit = true := by
  rw [FindString_eq]
  simp only [List.all_eq_true]
  intro c hc
  exact List.mem_takeWhile_imp hc

/-- Nothing matches exactly when the text has no digit. -/
theorem FindString_eq_nil_iff (l : List Char) :
    FindString l = [] ↔ l.any Char.isDigit = false := by
  induction l with
  | nil => simp [FindString]
  | cons c cs ih =>
    by_cases h : c.isDigit = true
    · simp [FindString, h]
    · simp [FindString, h, ih]

/-- The accumulation loop computes the decimal value. -/
theorem parseDigits_eq (ds : List Char) : parseDigits ds = decimalValue ds := by
  unfold parseDigits decimalValue
  induction ds using List.reverseRecOn with
  | nil => simp
  | append_singleton l a ih =>
    simp [List.foldl_append, Nat.ofDigits_cons, ih]
    ring

/-- On a run of digits `Atoi` fails only on the empty run or out of range. -/
theorem Atoi_of_digits (ds : List Char) (h : ds.all Char.isDigit = true) :
    Atoi ds = if ds = [] then none
              else if parseDigits ds ≤ maxInt then some (parseDigits ds : Int) else none := by
  cases ds with
  | nil => simp [Atoi]
  | cons c cs =>
    have hc : c.isDigit = true := by
      simp only [List.all_cons, Bool.and_eq_true] at h
      exact h.1
    have h1 : c ≠ '-' := by
      rintro rfl
      revert hc
      decide
    have h2 : c ≠ '+' := by
      rintro rfl
      revert hc
      decide
    simp [Atoi, h1, h2, h]

/-- The value `getNumberFromFile` returns, in closed form. -/
theorem getNumberFromFile_eq (filename : String) :
    getNumberFromFile filename =
      if hasDigit (Base filename) = true ∧ decimalValue (firstDigitRun (Base filename)) ≤ maxInt
      then (decimalValue (firstDigitRun (Base filename)) : Int) else -1 := by
  have hnil := FindString_eq_nil_iff (Base filename).toList
  have hrun : FindString (Base filename).toList = firstDigitRun (Base filename) :=
    FindString_eq _
  unfold getNumberFromFile
  simp only [Atoi_of_digits _ (FindString_all_digits _), parseDigits_eq]
  rw [hrun] at hnil ⊢
  by_cases hd : hasDigit (Base filename) = true
  · have hne : firstDigitRun (Base filename) ≠ [] := by
      intro h0
      have := hnil.mp h0
      simp [hasDigit] at hd
      simp at this
      obtain ⟨c, hc, hcd⟩ := hd
      have := this c hc
      simp [hcd] at this
    by_cases hv : decimalValue (firstDigitRun (Base filename)) ≤ maxInt
    · simp [hd, hne, hv]
    · simp [hd, hne, hv]
  · have h0 : firstDigitRun (Base filename) = [] := by
      apply hnil.mpr
      simpa [hasDigit] using hd
    simp [hd, h0]

/-- When `getNumberFromFile` returns the sentinel. -/
theorem getNumberFromFile_neg_one_iff (filename : String) :
    getNumberFromFile filename = -1 ↔
      (hasDigit (Base filename) = false ∨
        maxInt < decimalValue (firstDigitRun (Base filename))) := by
  rw [getNumberFromFile_eq]
  by_cases hd : hasDigit (Base filename) = true
  · by_cases hv : decimalValue (firstDigitRun (Base filename)) ≤ maxInt
    · simp only [hd, hv, and_self, if_true]
      constructor
      · intro h
        omega
      · intro h
        rcases h with h | h
        · simp at h
        · omega
    · simp only [hd, hv, and_false, if_false, true_iff]
      right
      omega
  · simp [hd]

/-- Inserting keeps the elements. -/
theorem insertLast_perm {α : Type} (less : α → α → Bool) (x : α) (l : List α) :
    (insertLast less x l).Perm (x :: l) := by
  induction l with
  | nil => simp [insertLast]
  | cons y rest ih =>
    unfold insertLast
    split
    · exact (List.Perm.cons y ih).trans (List.Perm.swap x y rest)
    · exact List.Perm.refl _

/-- The outer loop keeps the elements. -/
theorem foldl_insertLast_perm {α : Type} (less : α → α → Bool) (data done : List α) :
    (data.foldl (fun done x => insertLast less x done) done).Perm (data.reverse ++ done) := by
  induction data generalizing done with
  | nil => simp
  | cons x xs ih =>
    simp only [List.foldl_cons, List.reverse_cons, List.append_assoc, List.singleton_append]
    exact (ih _).trans (List.Perm.append_left _ (insertLast_perm less x done))

/-- Insertion sort rearranges its input. -/
theorem insertionSortLessFunc_perm {α : Type} (less : α → α → Bool) (data : List α) :
    (insertionSortLessFunc less data).Perm data := by
  unfold insertionSortLessFunc
  refine (List.reverse_perm _).trans ?_
  have := foldl_insertLast_perm less data []
  simp only [List.append_nil] at this
  exact this.trans (List.reverse_perm _)

/-- Inserting keeps the sorted part sorted (it is held last element first). -/
theorem insertLast_sorted {α : Type} (key : α → Int) (x : α) (l : List α)
    (h : l.Pairwise (fun a b => key b ≤ key a)) :
    (insertLast (fun a b => decide (key a < key b)) x l).Pairwise (fun a b => key b ≤ key a) := by
  induction l with
  | nil => simp [insertLast]
  | cons y rest ih =>
    rw [List.pairwise_cons] at h
    unfold insertLast
    by_cases hxy : key x < key y
    · simp only [hxy, decide_True, if_true, List.pairwise_cons]
      refine ⟨?_, ih h.2⟩
      intro b hb
      have hb := (insertLast_perm _ x rest).mem_iff.mp hb
      simp only [List.mem_cons] at hb
      rcases hb with rfl | hb
      · omega
      · exact h.1 b hb
    · simp only [hxy, decide_False, Bool.false_eq_true, if_false, List.pairwise_cons]
      refine ⟨?_, h.1, h.2⟩
      intro b hb
      simp only [List.mem_cons] at hb
      rcases hb with rfl | hb
      · omega
      · have := h.1 b hb
        omega

/-- The outer loop keeps the sorted part sorted. -/
theorem foldl_insertLast_sorted {α : Type} (key : α → Int) (data done : List α)
    (h : done.Pairwise (fun a b => key b ≤ key a)) :
    (data.foldl (fun done x => insertLast (fun a b => decide (key a < key b)) x done) done).Pairwise
      (fun a b => key b ≤ key a) := by
  induction data generalizing done with
  | nil => simpa using h
  | cons x xs ih => exact ih _ (insertLast_sorted key x done h)

/-- Insertion sort by a key gives ascending keys. -/
theorem insertionSortLessFunc_sorted {α : Type} (key : α → Int) (data : List α) :
    (insertionSortLessFunc (fun a b => decide (key a < key b)) data).Pairwise
      (fun a b => key a ≤ key b) := by
  unfold insertionSortLessFunc
  rw [List.pairwise_reverse]
  exact foldl_insertLast_sorted key data [] List.Pairwise.nil

/-- Insertion sort meets the contract of the library sort. -/
theorem insertionSort_contract : SortContract insertionSortLessFunc :=
  fun key x => ⟨insertionSortLessFunc_perm _ x, insertionSortLessFunc_sorted key x⟩

/-- The sorted chunk list is a rearrangement of the listing. -/
theorem sortSlice_perm (pdqsort : (String → String → Bool) → List String → List String)
    (h : SortContract pdqsort) (x : List String) :
    (sortSlice pdqsort chunkLess x).Perm x := by
  unfold sortSlice
  split
  · exact insertionSortLessFunc_perm _ x
  · exact (h getNumberFromFile x).1

/-- The sorted chunk list is in ascending order of `getNumberFromFile`. -/
theorem sortSlice_sorted (pdqsort : (String → String → Bool) → List String → List String)
    (h : SortContract pdqsort) (x : List String) :
    (sortSlice pdqsort chunkLess x).Pairwise
      (fun a b => getNumberFromFile a ≤ getNumberFromFile b) := by
  unfold sortSlice
  split
  · exact insertionSortLessFunc_sorted getNumberFromFile x
  · exact (h getNumberFromFile x).2

/-- Joining a list of strings, one step. -/
theorem String_join_cons (a : String) (l : List String) :
    String.join (a :: l) = a ++ String.join l := by
  have key : ∀ (l : List String) (acc : String),
      List.foldl (fun r s => r ++ s) acc l = acc ++ List.foldl (fun r s => r ++ s) "" l := by
    intro l
    induction l with
    | nil => intro acc; simp
    | cons b t ih =>
      intro acc
      simp only [List.foldl_cons]
      rw [ih (acc ++ b), ih ("" ++ b)]
      simp [String.append_assoc]
  unfold String.join
  simp only [List.foldl_cons]
  rw [key l ("" ++ a)]
  simp

/-- A file held by an entry is at most the largest file number in use. -/
theorem lookup_le_foldr_max (links : List (String × FileId)) (e : String) (i : FileId)
    (h : links.lookup e = some i) : i ≤ (links.map Prod.snd).foldr max 0 := by
  induction links with
  | nil => simp at h
  | cons link rest ih =>
    obtain ⟨e', j⟩ := link
    simp only [List.lookup_cons] at h
    simp only [List.map_cons, List.foldr_cons]
    cases hb : (e == e') with
    | true =>
      simp only [hb] at h
      cases h
      exact Nat.le_max_left _ _
    | false =>
      simp only [hb] at h
      exact Nat.le_trans (ih h) (Nat.le_max_right _ _)

/-- The fresh file number is held by no entry. -/
theorem Disk.fileAt_lt_freshId (d : Disk) (path : String) (i : FileId)
    (h : d.fileAt path = some i) : i < d.freshId := by
  unfold Disk.freshId
  exact Nat.lt_succ_of_le (lookup_le_foldr_max _ _ _ h)

/-- Appending nothing changes nothing. -/
theorem Disk.append_zero (d : Disk) (i : FileId) : d.append i "" = d := by
  cases d
  simp only [Disk.append, Disk.mk.injEq, true_and]
  funext j
  split
  · next h => simp [h]
  · rfl

/-- Two writes at the end of a file are one write of both. -/
theorem Disk.append_append (d : Disk) (i : FileId) (a b : String) :
    (d.append i a).append i b = d.append i (a ++ b) := by
  simp only [Disk.append, Disk.mk.injEq, true_and, if_true]
  funext j
  split
  · simp [String.append_assoc]
  · rfl

/-- Writing to a file moves no entry. -/
theorem Disk.fileAt_append (d : Disk) (i : FileId) (a : String) (path : String) :
    (d.append i a).fileAt path = d.fileAt path := rfl

/-- Writing to a file leaves the other files as they are. -/
theorem Disk.data_append_ne (d : Disk) (i j : FileId) (a : String) (h : j ≠ i) :
    (d.append i a).data j = d.data j := by
  simp [Disk.append, h]

/-- Writing to a file adds the bytes at its end. -/
theorem Disk.data_append_self (d : Disk) (i : FileId) (a : String) :
    (d.append i a).data i = d.data i ++ a := by
  simp [Disk.append]

/-- After `os.Create` the path leads to the file of the handle. -/
theorem Disk.fileAt_create_self (d : Disk) (path : String) :
    (d.create path).1.fileAt path = some (d.create path).2 := by
  unfold Disk.create
  cases h : d.fileAt path with
  | some file => simpa [Disk.truncate, Disk.fileAt] using h
  | none => simp [Disk.truncate, Disk.fileAt, List.lookup_cons]

/-- After `os.Create` the file of the handle is empty. -/
theorem Disk.data_create_self (d : Disk) (path : String) :
    (d.create path).1.data (d.create path).2 = "" := by
  unfold Disk.create
  cases h : d.fileAt path <;> simp [Disk.truncate]

/-- After `os.Create` the path reads as empty. -/
theorem Disk.read_create_self (d : Disk) (path : String) :
    (d.create path).1.read path = some "" := by
  simp [Disk.read, Disk.fileAt_create_self, Disk.data_create_self]

/-- A path that leads to another file than the created one still leads to it after `os.Create`, the bytes unchanged. -/
theorem Disk.create_other (d : Disk) (path c : String) (i : FileId)
    (hc : d.fileAt c = some i) (hne : d.fileAt c ≠ d.fileAt path) :
    (d.create path).1.fileAt c = some i ∧ (d.create path).1.data i = d.data i ∧
      i ≠ (d.create path).2 := by
  unfold Disk.create
  cases h : d.fileAt path with
  | some file =>
    have hif : i ≠ file := by
      intro hi
      apply hne
      rw [hc, h, hi]
    refine ⟨by simpa [Disk.truncate, Disk.fileAt] using hc, by simp [Disk.truncate, hif], hif⟩
  | none =>
    have hlt := Disk.fileAt_lt_freshId d c i hc
    have hif : i ≠ d.freshId := Nat.ne_of_lt hlt
    have hent : (d.entryOf c == d.entryOf path) = false := by
      cases hb : (d.entryOf c == d.entryOf path) with
      | false => rfl
      | true =>
        exfalso
        have heq : d.entryOf c = d.entryOf path := by simpa using hb
        simp only [Disk.fileAt] at hc h
        rw [heq, h] at hc
        cases hc
    refine ⟨?_, by simp [Disk.truncate, hif], hif⟩
    simp only [Disk.truncate, Disk.fileAt, List.lookup_cons, hent]
    exact hc

/-- The copy loop when nothing fails and no chunk is the file of the output handle. -/
theorem copyChunks_ok (env : Env) (outFile : String) (out : FileId) (chunks : List String)
    (s : State)
    (hopen : ∀ c ∈ chunks, env.openErr c = none)
    (hcopy : ∀ c ∈ chunks, env.copyErr c = none)
    (hfile : ∀ c ∈ chunks, ∃ i, s.disk.fileAt c = some i ∧ i ≠ out) :
    copyChunks env outFile out chunks s =
      (none, { s with
        disk := s.disk.append out
          (String.join (chunks.map fun c => (s.disk.read c).getD "")),
        trace := s.trace ++ copyCalls outFile chunks }) := by
  induction chunks generalizing s with
  | nil => simp [copyChunks, copyCalls, String.join, Disk.append_zero]
  | cons chunk rest ih =>
    obtain ⟨i, hi, hio⟩ := hfile chunk (by simp)
    have ho := hopen chunk (by simp)
    have hc := hcopy chunk (by simp)
    have hkeep : ∀ c ∈ rest, ((s.disk.append out (s.disk.data i)).read c) = s.disk.read c := by
      intro c hc
      obtain ⟨j, hj, hjo⟩ := hfile c (List.mem_cons_of_mem _ hc)
      simp [Disk.read, Disk.fileAt_append, hj, Disk.data_append_ne _ _ _ _ hjo]
    have hmap : List.map (fun c => ((s.disk.append out (s.disk.data i)).read c).getD "") rest
        = List.map (fun c => (s.disk.read c).getD "") rest :=
      List.map_congr_left fun c hc => by rw [hkeep c hc]
    unfold copyChunks
    simp only [ho, ReadFrom, State.emit, hi, hc, hio, false_and, if_false]
    rw [ih
      { disk := s.disk.append out (s.disk.data i),
        handles := (⟨chunk, false⟩ :: s.handles).erase ⟨chunk, false⟩,
        processed := s.processed, errors := s.errors,
        trace := s.trace ++ [Event.openFile chunk] ++ [Event.readFrom outFile chunk] ++
          [Event.close chunk] }
      (fun c hc => hopen c (List.mem_cons_of_mem _ hc))
      (fun c hc => hcopy c (List.mem_cons_of_mem _ hc))
      (fun c hc => hfile c (List.mem_cons_of_mem _ hc))]
    simp only [List.erase_cons_head, Disk.append_append, List.map_cons, Disk.read, hi,
      Option.map_some', Option.getD_some, String_join_cons, copyCalls, List.flatMap_cons,
      List.append_assoc, List.cons_append, List.nil_append, List.singleton_append]
    simp only [Disk.read] at hmap
    rw [hmap]

/-- The merge when nothing fails and no chunk is the file the output path leads to. -/
theorem mergeChunksFromDir_ok (env : Env) (inDir outFile : String) (chunks : List String)
    (s : State) (hsort : SortContract env.pdqsort)
    (hglob : env.glob (Join [inDir, "*.chunk"]) = .ok chunks)
    (hcreate : env.createErr outFile = none)
    (hopen : ∀ c ∈ chunks, env.openErr c = none)
    (hcopy : ∀ c ∈ chunks, env.copyErr c = none)
    (hfile : ∀ c ∈ chunks, s.disk.fileAt c ≠ none)
    (hout : ∀ c ∈ chunks, s.disk.fileAt c ≠ s.disk.fileAt outFile) :
    mergeChunksFromDir env inDir outFile s =
      (none, { s with
        disk := (s.disk.create outFile).1.append (s.disk.create outFile).2 (String.join
          ((sortSlice env.pdqsort chunkLess chunks).map fun c => (s.disk.read c).getD "")),
        trace := s.trace ++ mergeCalls (Join [inDir, "*.chunk"]) outFile
          (sortSlice env.pdqsort chunkLess chunks) }) := by
  have hperm := sortSlice_perm env.pdqsort hsort chunks
  have hmem : ∀ c, c ∈ sortSlice env.pdqsort chunkLess chunks → c ∈ chunks :=
    fun c hc => hperm.mem_iff.mp hc
  have hother : ∀ c ∈ chunks, ∃ i, s.disk.fileAt c = some i ∧
      (s.disk.create outFile).1.fileAt c = some i ∧
      (s.disk.create outFile).1.data i = s.disk.data i ∧ i ≠ (s.disk.create outFile).2 := by
    intro c hc
    cases hi : s.disk.fileAt c with
    | none => exact absurd hi (hfile c hc)
    | some i =>
      obtain ⟨h1, h2, h3⟩ := Disk.create_other s.disk outFile c i hi (hout c hc)
      exact ⟨i, rfl, h1, h2, h3⟩
  have hmap : List.map (fun c => (((s.disk.create outFile).1).read c).getD "")
        (sortSlice env.pdqsort chunkLess chunks)
      = List.map (fun c => (s.disk.read c).getD "") (sortSlice env.pdqsort chunkLess chunks) :=
    List.map_congr_left fun c hc => by
      obtain ⟨i, h0, h1, h2, -⟩ := hother c (hmem c hc)
      simp [Disk.read, h0, h1, h2]
  unfold mergeChunksFromDir
  simp only [hglob, hcreate, State.emit]
  rw [copyChunks_ok env outFile _ _ _ (fun c hc => hopen c (hmem c hc))
    (fun c hc => hcopy c (hmem c hc))
    (fun c hc => by
      obtain ⟨i, -, h1, -, h3⟩ := hother c (hmem c hc)
      exact ⟨i, h1, h3⟩)]
  simp only [List.erase_cons_head, hmap, mergeCalls, List.append_assoc,
    List.cons_append, List.nil_append]

/-- The output path reads what was written after the creation. -/
theorem read_merged (d : Disk) (outFile : String) (bytes : String) :
    ((d.create outFile).1.append (d.create outFile).2 bytes).read outFile = some bytes := by
  simp [Disk.read, Disk.fileAt_append, Disk.fileAt_create_self, Disk.data_append_self,
    Disk.data_create_self]

/-- A chunk that is another file than the output reads the same after the merge. -/
theorem read_chunk_after_merge (d : Disk) (outFile c : String) (bytes : String)
    (hfile : d.fileAt c ≠ none) (hout : d.fileAt c ≠ d.fileAt outFile) :
    ((d.create outFile).1.append (d.create outFile).2 bytes).read c = d.read c := by
  cases hi : d.fileAt c with
  | none => exact absurd hi hfile
  | some i =>
    obtain ⟨h1, h2, h3⟩ := Disk.create_other d outFile c i hi hout
    simp [Disk.read, Disk.fileAt_append, h1, hi, Disk.data_append_ne _ _ _ _ h3, h2]

/-- The copy loop only makes merge calls, copies chunks in list order and leaves
the ledger alone. -/
theorem copyChunks_frame (env : Env) (outFile : String) (out : FileId) (chunks : List String)
    (s : State) :
    ∃ evs, (copyChunks env outFile out chunks s).2.trace = s.trace ++ evs ∧
      (∀ e ∈ evs, e.isMergeCall = true) ∧ (writeOrder evs).Sublist chunks ∧
      (copyChunks env outFile out chunks s).2.processed = s.processed ∧
      (copyChunks env outFile out chunks s).2.errors = s.errors := by
  induction chunks generalizing s with
  | nil => exact ⟨[], by simp [copyChunks, writeOrder]⟩
  | cons chunk rest ih =>
    unfold copyChunks
    cases ho : env.openErr chunk with
    | some err =>
      exact ⟨[.openFile chunk], by simp [State.emit, Event.isMergeCall, writeOrder]⟩
    | none =>
      simp only [ReadFrom, State.emit]
      cases hf : s.disk.fileAt chunk with
      | none =>
        refine ⟨[.openFile chunk, .readFrom outFile chunk], ?_⟩
        simp [Event.isMergeCall, writeOrder]
      | some src =>
        cases hc : env.copyErr chunk with
        | some ne =>
          refine ⟨[.openFile chunk, .readFrom outFile chunk], ?_⟩
          simp [Event.isMergeCall, writeOrder]
        | none =>
          by_cases halias : src = out ∧ s.disk.data src ≠ ""
          · refine ⟨[.openFile chunk, .readFrom outFile chunk], ?_⟩
            simp only [if_pos halias]
            simp [Event.isMergeCall, writeOrder]
          · simp only [if_neg halias]
            obtain ⟨evs, h1, h2, h3, h4, h5⟩ := ih
              { disk := s.disk.append out (s.disk.data src),
                handles := (⟨chunk, false⟩ :: s.handles).erase ⟨chunk, false⟩,
                processed := s.processed, errors := s.errors,
                trace := s.trace ++ [Event.openFile chunk] ++ [Event.readFrom outFile chunk] ++
                  [Event.close chunk] }
            refine ⟨[.openFile chunk, .readFrom outFile chunk, .close chunk] ++ evs,
              ?_, ?_, ?_, ?_, ?_⟩
            · rw [h1]; simp
            · intro e he
              simp only [List.cons_append, List.nil_append, List.mem_cons] at he
              rcases he with rfl | rfl | rfl | he
              · rfl
              · rfl
              · rfl
              · exact h2 e he
            · simpa [writeOrder] using h3
            · rw [h4]
            · rw [h5]

/-- The calls of a run are what it appends to the trace. -/
theorem newEvents_append (s t : State) (evs : List Event) (h : t.trace = s.trace ++ evs) :
    newEvents s t = evs := by
  unfold newEvents
  rw [h, List.drop_left]

/-- The merge only makes merge calls, copies chunks in sorted order and leaves the ledger alone. -/
theorem mergeChunksFromDir_frame (env : Env) (inDir outFile : String) (s : State) :
    ∃ evs, (mergeChunksFromDir env inDir outFile s).2.trace = s.trace ++ evs ∧
      (∀ e ∈ evs, e.isMergeCall = true) ∧
      (writeOrder evs).Sublist
        (match env.glob (Join [inDir, "*.chunk"]) with
         | .ok chunks => sortSlice env.pdqsort chunkLess chunks
         | .error _ => []) ∧
      (mergeChunksFromDir env inDir outFile s).2.processed = s.processed ∧
      (mergeChunksFromDir env inDir outFile s).2.errors = s.errors := by
  cases hg : env.glob (Join [inDir, "*.chunk"]) with
  | error err =>
    refine ⟨[.glob (Join [inDir, "*.chunk"])], ?_⟩
    simp [mergeChunksFromDir, hg, State.emit, Event.isMergeCall, writeOrder]
  | ok chunks =>
    cases hc : env.createErr outFile with
    | some err =>
      refine ⟨[.glob (Join [inDir, "*.chunk"]), .create outFile], ?_⟩
      simp [mergeChunksFromDir, hg, hc, State.emit, Event.isMergeCall, writeOrder]
    | none =>
      simp only [mergeChunksFromDir, hg, hc, State.emit]
      obtain ⟨evs, h1, h2, h3, h4, h5⟩ := copyChunks_frame env outFile
        (s.disk.create outFile).2 (sortSlice env.pdqsort chunkLess chunks)
        { disk := (s.disk.create outFile).1,
          handles := ⟨outFile, true⟩ :: s.handles,
          processed := s.processed, errors := s.errors,
          trace := s.trace ++ [Event.glob (Join [inDir, "*.chunk"])] ++ [Event.create outFile] }
      refine ⟨[.glob (Join [inDir, "*.chunk"]), .create outFile] ++ evs ++ [.close outFile],
        ?_, ?_, ?_, ?_, ?_⟩
      · simp only [h1]; simp
      · intro e he
        simp only [List.cons_append, List.nil_append, List.mem_cons, List.mem_append,
          List.mem_singleton, List.not_mem_nil, or_false] at he
        rcases he with rfl | rfl | he | rfl
        · rfl
        · rfl
        · exact h2 e he
        · rfl
      · simpa [writeOrder, List.filterMap_append] using h3
      · simpa using h4
      · simpa using h5

/-- A merge call is no `RegisterError`. -/
theorem mergeCall_not_registerError (e : Event) (h : e.isMergeCall = true) :
    e.isRegisterError = false := by
  cases e <;> simp_all [Event.isMergeCall, Event.isRegisterError]

/-- A merge call is no `MarkProcessed`. -/
theorem mergeCall_not_markProcessed (e : Event) (h : e.isMergeCall = true) :
    e.isMarkProcessed = false := by
  cases e <;> simp_all [Event.isMergeCall, Event.isMarkProcessed]

/-- The two calls of `LogError`. -/
theorem LogError_trace (env : Env) (thread : VideoTask) (message err : String) (s : State) :
    (LogError env thread message err s).trace =
      s.trace ++ [.log .error "Processing error",
        .registerError ⟨thread.VideoId, message, err⟩] := by
  simp only [LogError, RegisterError, State.emit]
  split <;> simp

/-- The method `LogError` leaves the disk, the handles and the processed records as they are. -/
theorem LogError_frame (env : Env) (thread : VideoTask) (message err : String) (s : State) :
    (LogError env thread message err s).disk = s.disk ∧
    (LogError env thread message err s).handles = s.handles ∧
    (LogError env thread message err s).processed = s.processed := by
  simp only [LogError, RegisterError, State.emit]
  split <;> simp

/-- The method `LogError` appends its record to the error log, unless the
append fails. -/
theorem LogError_errors (env : Env) (thread : VideoTask) (message err : String) (s : State) :
    (LogError env thread message err s).errors =
      s.errors ++ [(⟨thread.VideoId, message, err⟩ : ErrorRecord)].filter
        (fun r => !env.registerErrorFails r) := by
  simp only [LogError, RegisterError, State.emit]
  cases h : env.registerErrorFails ⟨thread.VideoId, message, err⟩ <;> simp [h]

/-- The method `process` when the merge fails. -/
theorem process_merge_fail (env : Env) (thread : VideoTask)
    (convertedFileName mergedFileName : String) (s s3 : State) (err : String)
    (hM : mergeChunksFromDir env thread.Path (Join [thread.Path, mergedFileName])
      (s.emit (.log .info "Merging chunks")) = (some err, s3)) :
    process env thread convertedFileName mergedFileName s =
      (some err, LogError env thread
        ("Failed to merge chunks for VideoId=" ++ runeString thread.VideoId) err s3) := by
  unfold process
  simp only [hM]

/-- The method `process` when the directory cannot be created. -/
theorem process_mkdir_fail (env : Env) (thread : VideoTask)
    (convertedFileName mergedFileName : String) (s s3 : State) (err : String)
    (hM : mergeChunksFromDir env thread.Path (Join [thread.Path, mergedFileName])
      (s.emit (.log .info "Merging chunks")) = (none, s3))
    (hdir : env.mkdirAllErr (Join [thread.Path, "mpeg-dash"]) = some err) :
    process env thread convertedFileName mergedFileName s =
      (some err, LogError env thread "Failed to create directory for mpeg-dash files" err
        (s3.emit (.mkdirAll (Join [thread.Path, "mpeg-dash"])))) := by
  unfold process
  simp only [hM, hdir]

/-- The method `process` when the transcoder fails. -/
theorem process_command_fail (env : Env) (thread : VideoTask)
    (convertedFileName mergedFileName : String) (s s3 : State) (err : String)
    (hM : mergeChunksFromDir env thread.Path (Join [thread.Path, mergedFileName])
      (s.emit (.log .info "Merging chunks")) = (none, s3))
    (hdir : env.mkdirAllErr (Join [thread.Path, "mpeg-dash"]) = none)
    (hrun : (env.runCommand "ffmpeg" (ffmpegArgs thread convertedFileName mergedFileName)
      s3.disk).err = some err) :
    process env thread convertedFileName mergedFileName s =
      (some err, LogError env thread
        ("Failed to convert video to mpeg-dash format [outstream: " ++
          (env.runCommand "ffmpeg" (ffmpegArgs thread convertedFileName mergedFileName)
            s3.disk).output ++ "]") err
        { (((s3.emit (.mkdirAll (Join [thread.Path, "mpeg-dash"]))).emit
            (.log .info "Converting video")).emit
            (.command "ffmpeg" (ffmpegArgs thread convertedFileName mergedFileName))) with
          disk := (env.runCommand "ffmpeg"
            (ffmpegArgs thread convertedFileName mergedFileName) s3.disk).disk }) := by
  unfold process
  simp only [hM, hdir]
  simp only [State.emit, hrun]

/-- The method `process` when the merged file cannot be removed. -/
theorem process_remove_fail (env : Env) (thread : VideoTask)
    (convertedFileName mergedFileName : String) (s s3 : State) (err : String)
    (hM : mergeChunksFromDir env thread.Path (Join [thread.Path, mergedFileName])
      (s.emit (.log .info "Merging chunks")) = (none, s3))
    (hdir : env.mkdirAllErr (Join [thread.Path, "mpeg-dash"]) = none)
    (hrun : (env.runCommand "ffmpeg" (ffmpegArgs thread convertedFileName mergedFileName)
      s3.disk).err = none)
    (hrm : env.removeErr (Join [thread.Path, mergedFileName]) = some err) :
    process env thread convertedFileName mergedFileName s =
      (some err, LogError env thread
        ("Failed to remove non-converted file for VideoId=" ++ runeString thread.VideoId) err
        { s3 with
          disk := (env.runCommand "ffmpeg"
            (ffmpegArgs thread convertedFileName mergedFileName) s3.disk).disk,
          trace := s3.trace ++ [.mkdirAll (Join [thread.Path, "mpeg-dash"]),
            .log .info "Converting video",
            .command "ffmpeg" (ffmpegArgs thread convertedFileName mergedFileName),
            .log .info "Video Successfully converted to mpeg-dash",
            .log .info "Deleting non-converted video",
            .remove (Join [thread.Path, mergedFileName])] }) := by
  unfold process
  simp only [hM, hdir]
  simp only [State.emit, hrun, hrm, List.append_assoc, List.singleton_append,
    List.cons_append, List.nil_append]

/-- The method `process` when every stage succeeds. -/
theorem process_ok (env : Env) (thread : VideoTask)
    (convertedFileName mergedFileName : String) (s s3 : State)
    (hM : mergeChunksFromDir env thread.Path (Join [thread.Path, mergedFileName])
      (s.emit (.log .info "Merging chunks")) = (none, s3))
    (hdir : env.mkdirAllErr (Join [thread.Path, "mpeg-dash"]) = none)
    (hrun : (env.runCommand "ffmpeg" (ffmpegArgs thread convertedFileName mergedFileName)
      s3.disk).err = none)
    (hrm : env.removeErr (Join [thread.Path, mergedFileName]) = none) :
    process env thread convertedFileName mergedFileName s =
      (none, { s3 with
          disk := (env.runCommand "ffmpeg"
            (ffmpegArgs thread convertedFileName mergedFileName) s3.disk).disk.unlink
              (Join [thread.Path, mergedFileName]),
          trace := s3.trace ++ [.mkdirAll (Join [thread.Path, "mpeg-dash"]),
            .log .info "Converting video",
            .command "ffmpeg" (ffmpegArgs thread convertedFileName mergedFileName),
            .log .info "Video Successfully converted to mpeg-dash",
            .log .info "Deleting non-converted video",
            .remove (Join [thread.Path, mergedFileName])] }) := by
  unfold process
  simp only [hM, hdir]
  simp only [State.emit, hrun, hrm, List.append_assoc, List.singleton_append,
    List.cons_append, List.nil_append]

/-- The method `Handle` when `process` fails. -/
theorem Handle_process_fail (env : Env) (msgBytes convertedFileName mergedFileName : String)
    (s s4 : State) (thread : VideoTask) (err : String)
    (hdecode : env.unmarshal msgBytes = (thread, none))
    (hnew : (IsProcessed thread.VideoId s).1 = false)
    (hP : process env thread convertedFileName mergedFileName
      (s.emit (.isProcessed thread.VideoId)) = (some err, s4)) :
    Handle env msgBytes convertedFileName mergedFileName s =
      LogError env thread
        ("Failed to process video with id=" ++ runeString thread.VideoId) err s4 := by
  simp only [IsProcessed] at hnew
  simp only [Handle, hdecode, IsProcessed, hnew, hP]
  simp

/-- Recording a call appends it. -/
theorem emit_trace (s : State) (e : Event) : (s.emit e).trace = s.trace ++ [e] := rfl

/-- After a successful merge `process` asks for the output directory. -/
theorem process_reaches_mkdir (env : Env) (thread : VideoTask)
    (convertedFileName mergedFileName : String) (s s3 : State)
    (hM : mergeChunksFromDir env thread.Path (Join [thread.Path, mergedFileName])
      (s.emit (.log .info "Merging chunks")) = (none, s3)) :
    ∃ tail, (process env thread convertedFileName mergedFileName s).2.trace =
      s3.trace ++ Event.mkdirAll (Join [thread.Path, "mpeg-dash"]) :: tail := by
  cases hdir : env.mkdirAllErr (Join [thread.Path, "mpeg-dash"]) with
  | some err =>
    rw [process_mkdir_fail env thread convertedFileName mergedFileName s s3 err hM hdir]
    exact ⟨_, by rw [LogError_trace, emit_trace, List.append_assoc]; rfl⟩
  | none =>
    cases hrun : (env.runCommand "ffmpeg"
      (ffmpegArgs thread convertedFileName mergedFileName) s3.disk).err with
    | some err =>
      rw [process_command_fail env thread convertedFileName mergedFileName s s3 err hM hdir hrun]
      refine ⟨[.log .info "Converting video",
        .command "ffmpeg" (ffmpegArgs thread convertedFileName mergedFileName),
        .log .error "Processing error",
        .registerError ⟨thread.VideoId,
          "Failed to convert video to mpeg-dash format [outstream: " ++
            (env.runCommand "ffmpeg" (ffmpegArgs thread convertedFileName mergedFileName)
              s3.disk).output ++ "]", err⟩], ?_⟩
      rw [LogError_trace]
      simp only [State.emit, List.append_assoc, List.singleton_append, List.cons_append,
        List.nil_append]
    | none =>
      cases hrm : env.removeErr (Join [thread.Path, mergedFileName]) with
      | some err =>
        rw [process_remove_fail env thread convertedFileName mergedFileName s s3 err hM hdir
          hrun hrm]
        refine ⟨[.log .info "Converting video",
          .command "ffmpeg" (ffmpegArgs thread convertedFileName mergedFileName),
          .log .info "Video Successfully converted to mpeg-dash",
          .log .info "Deleting non-converted video",
          .remove (Join [thread.Path, mergedFileName]),
          .log .error "Processing error",
          .registerError ⟨thread.VideoId,
            "Failed to remove non-converted file for VideoId=" ++ runeString thread.VideoId,
            err⟩], ?_⟩
        rw [LogError_trace]
        simp only [List.append_assoc, List.singleton_append, List.cons_append,
          List.nil_append]
      | none =>
        rw [process_ok env thread convertedFileName mergedFileName s s3 hM hdir hrun hrm]
        exact ⟨_, rfl⟩

/-- After a successful merge and directory creation `process` invokes the transcoder. -/
theorem process_reaches_command (env : Env) (thread : VideoTask)
    (convertedFileName mergedFileName : String) (s s3 : State)
    (hM : mergeChunksFromDir env thread.Path (Join [thread.Path, mergedFileName])
      (s.emit (.log .info "Merging chunks")) = (none, s3))
    (hdir : env.mkdirAllErr (Join [thread.Path, "mpeg-dash"]) = none) :
    ∃ tail, (process env thread convertedFileName mergedFileName s).2.trace =
      s3.trace ++ Event.mkdirAll (Join [thread.Path, "mpeg-dash"]) ::
        Event.log .info "Converting video" ::
        Event.command "ffmpeg" (ffmpegArgs thread convertedFileName mergedFileName) ::
        tail := by
  cases hrun : (env.runCommand "ffmpeg"
    (ffmpegArgs thread convertedFileName mergedFileName) s3.disk).err with
  | some err =>
    rw [process_command_fail env thread convertedFileName mergedFileName s s3 err hM hdir hrun]
    refine ⟨[.log .error "Processing error",
      .registerError ⟨thread.VideoId,
        "Failed to convert video to mpeg-dash format [outstream: " ++
          (env.runCommand "ffmpeg" (ffmpegArgs thread convertedFileName mergedFileName)
            s3.disk).output ++ "]", err⟩], ?_⟩
    rw [LogError_trace]
    simp only [State.emit, List.append_assoc, List.singleton_append, List.cons_append,
      List.nil_append]
  | none =>
    cases hrm : env.removeErr (Join [thread.Path, mergedFileName]) with
    | some err =>
      rw [process_remove_fail env thread convertedFileName mergedFileName s s3 err hM hdir
        hrun hrm]
      refine ⟨[.log .info "Video Successfully converted to mpeg-dash",
        .log .info "Deleting non-converted video",
        .remove (Join [thread.Path, mergedFileName]),
        .log .error "Processing error",
        .registerError ⟨thread.VideoId,
          "Failed to remove non-converted file for VideoId=" ++ runeString thread.VideoId,
          err⟩], ?_⟩
      rw [LogError_trace]
      simp only [List.append_assoc, List.singleton_append, List.cons_append,
        List.nil_append]
    | none =>
      rw [process_ok env thread convertedFileName mergedFileName s s3 hM hdir hrun hrm]
      exact ⟨_, rfl⟩

/-- The copy loop leaves the handles as they were when it succeeds, and leaves at
most one chunk handle open. -/
theorem copyChunks_handles (env : Env) (outFile : String) (out : FileId) (chunks : List String)
    (s : State) :
    ((copyChunks env outFile out chunks s).1 = none →
      (copyChunks env outFile out chunks s).2.handles = s.handles) ∧
    ((copyChunks env outFile out chunks s).2.handles = s.handles ∨
      ∃ c ∈ chunks, (copyChunks env outFile out chunks s).2.handles =
        ⟨c, false⟩ :: s.handles) := by
  induction chunks generalizing s with
  | nil => simp [copyChunks]
  | cons chunk rest ih =>
    unfold copyChunks
    cases ho : env.openErr chunk with
    | some err => simp [State.emit]
    | none =>
      simp only [ReadFrom, State.emit]
      cases hf : s.disk.fileAt chunk with
      | none => simp
      | some src =>
        cases hc : env.copyErr chunk with
        | some ne => simp
        | none =>
          by_cases halias : src = out ∧ s.disk.data src ≠ ""
          · simp only [if_pos halias]
            simp
          · simp only [if_neg halias, List.erase_cons_head]
            have h := ih
              { disk := s.disk.append out (s.disk.data src),
                handles := s.handles,
                processed := s.processed, errors := s.errors,
                trace := s.trace ++ [Event.openFile chunk] ++ [Event.readFrom outFile chunk] ++
                  [Event.close chunk] }
            refine ⟨h.1, ?_⟩
            rcases h.2 with h2 | ⟨c, hc, h2⟩
            · exact Or.inl h2
            · exact Or.inr ⟨c, List.mem_cons_of_mem _ hc, h2⟩

/-- The merge leaves no handle open when it succeeds; when it fails the output handle is closed and at most one chunk handle stays open. -/
theorem mergeChunksFromDir_handles (env : Env) (inDir outFile : String) (s : State) :
    ((mergeChunksFromDir env inDir outFile s).1 = none →
      (mergeChunksFromDir env inDir outFile s).2.handles = s.handles) ∧
    ((mergeChunksFromDir env inDir outFile s).2.handles = s.handles ∨
      ∃ c, (mergeChunksFromDir env inDir outFile s).2.handles = ⟨c, false⟩ :: s.handles) := by
  cases hg : env.glob (Join [inDir, "*.chunk"]) with
  | error err => simp [mergeChunksFromDir, hg, State.emit]
  | ok chunks =>
    cases hc : env.createErr outFile with
    | some err => simp [mergeChunksFromDir, hg, hc, State.emit]
    | none =>
      simp only [mergeChunksFromDir, hg, hc, State.emit]
      have h := copyChunks_handles env outFile (s.disk.create outFile).2
        (sortSlice env.pdqsort chunkLess chunks)
        { disk := (s.disk.create outFile).1,
          handles := ⟨outFile, true⟩ :: s.handles,
          processed := s.processed, errors := s.errors,
          trace := s.trace ++ [Event.glob (Join [inDir, "*.chunk"])] ++ [Event.create outFile] }
      constructor
      · intro h0
        rw [h.1 h0]
        simp
      · rcases h.2 with h2 | ⟨c, -, h2⟩
        · left
          rw [h2]
          simp
        · right
          refine ⟨c, ?_⟩
          rw [h2]
          have hne : (⟨c, false⟩ : FileHandle) ≠ ⟨outFile, true⟩ := by
            intro h
            simp at h
          simp [List.erase_cons_tail, hne]

/-- Another spelling of a listed chunk, or another name of its file, is that
chunk: with the output at `./0.chunk`, or at a hard link of `0.chunk`, the merge
truncates the chunk and the output holds "BB". -/
theorem mergeChunksFromDir_same_file_other_name :
    (mergeChunksFromDir demoEnv "mediatest/media/uploads/2"
      "mediatest/media/uploads/2/./0.chunk" demoState).2.disk.read
        "mediatest/media/uploads/2/0.chunk" = some "BB" ∧
    (mergeChunksFromDir demoEnv "mediatest/media/uploads/2"
      "mediatest/media/uploads/2/merged-test.mp4" linkedState).2.disk.read
        "mediatest/media/uploads/2/merged-test.mp4" = some "BB" := by
  decide

/-! ## The claims -/

/-- Claim C1 (amended): when the glob lists `chunks`, every file operation
succeeds and no listed chunk is the file the output path leads to (under any
spelling of the path and through any link), `mergeChunksFromDir` returns no
error and leaves the output file holding exactly the concatenation of the chunk
contents, taken in an order that is a rearrangement of the listing in ascending
order of `getNumberFromFile`. That order is the ascending numeric order of the
first digit runs of the base names whenever each name has one that fits in an
`int`. The chunks themselves read as before. -/
theorem mergeChunksFromDir_concat_sorted (env : Env) (inDir outFile : String)
    (chunks : List String) (s : State)
    (hsort : SortContract env.pdqsort)
    (hglob : env.glob (Join [inDir, "*.chunk"]) = .ok chunks)
    (hcreate : env.createErr outFile = none)
    (hopen : ∀ c ∈ chunks, env.openErr c = none)
    (hcopy : ∀ c ∈ chunks, env.copyErr c = none)
    (hfile : ∀ c ∈ chunks, s.disk.fileAt c ≠ none)
    (hout : ∀ c ∈ chunks, s.disk.fileAt c ≠ s.disk.fileAt outFile) :
    (mergeChunksFromDir env inDir outFile s).1 = none ∧
    (sortSlice env.pdqsort chunkLess chunks).Perm chunks ∧
    (sortSlice env.pdqsort chunkLess chunks).Pairwise
      (fun a b => getNumberFromFile a ≤ getNumberFromFile b) ∧
    ((∀ c ∈ chunks, hasDigit (Base c) = true ∧
        decimalValue (firstDigitRun (Base c)) ≤ maxInt) →
      (sortSlice env.pdqsort chunkLess chunks).Pairwise
        (fun a b => decimalValue (firstDigitRun (Base a)) ≤
          decimalValue (firstDigitRun (Base b)))) ∧
    (mergeChunksFromDir env inDir outFile s).2.disk.read outFile =
      some (String.join
        ((sortSlice env.pdqsort chunkLess chunks).map fun c => (s.disk.read c).getD "")) ∧
    (∀ c ∈ chunks, (mergeChunksFromDir env inDir outFile s).2.disk.read c = s.disk.read c) := by
  rw [mergeChunksFromDir_ok env inDir outFile chunks s hsort hglob hcreate hopen hcopy hfile hout]
  refine ⟨rfl, sortSlice_perm _ hsort _, sortSlice_sorted _ hsort _, ?_, read_merged _ _ _,
    fun c hc => read_chunk_after_merge _ _ _ _ (hfile c hc) (hout c hc)⟩
  intro hrange
  have hmem : ∀ c, c ∈ sortSlice env.pdqsort chunkLess chunks → c ∈ chunks :=
    fun c hc => (sortSlice_perm _ hsort chunks).mem_iff.mp hc
  have hkey : ∀ c ∈ chunks,
      getNumberFromFile c = (decimalValue (firstDigitRun (Base c)) : Int) := by
    intro c hc
    rw [getNumberFromFile_eq, if_pos (hrange c hc)]
  refine (sortSlice_sorted _ hsort chunks).imp_of_mem ?_
  intro a b ha hb hab
  rw [hkey a (hmem a ha), hkey b (hmem b hb)] at hab
  exact_mod_cast hab

/-- Witness of C1: part2.chunk, part10.chunk and part1.chunk give
part1 + part2 + part10. -/
theorem mergeChunksFromDir_concat_sorted_witness :
    (mergeChunksFromDir partsEnv "uploads/7" "uploads/7/merged.mp4" partsState).1 = none ∧
    (mergeChunksFromDir partsEnv "uploads/7" "uploads/7/merged.mp4" partsState).2.disk.read
      "uploads/7/merged.mp4" = some "onetwoten" :=
  have h := mergeChunksFromDir_concat_sorted partsEnv "uploads/7" "uploads/7/merged.mp4"
    ["uploads/7/part1.chunk", "uploads/7/part10.chunk", "uploads/7/part2.chunk"] partsState
    insertionSort_contract (by rfl) rfl (fun _ _ => rfl) (fun _ _ => rfl) (by decide)
    (by decide)
  ⟨h.1, h.2.2.2.2.1.trans (by decide)⟩

/-- Counterexample to C1 as stated: the output file is `0.chunk`, one of the two
chunks of the directory. Every file operation succeeds, and the output holds
"BB": neither the concatenation "AABB" of the chunk contents before the call
nor the concatenation "BBBB" of their contents after it. -/
theorem mergeChunksFromDir_output_among_chunks :
    (mergeChunksFromDir demoEnv "mediatest/media/uploads/2"
      "mediatest/media/uploads/2/0.chunk" demoState).1 = none ∧
    (mergeChunksFromDir demoEnv "mediatest/media/uploads/2"
      "mediatest/media/uploads/2/0.chunk" demoState).2.disk.read
        "mediatest/media/uploads/2/0.chunk" = some "BB" ∧
    String.join ((sortSlice demoEnv.pdqsort chunkLess
      ["mediatest/media/uploads/2/0.chunk", "mediatest/media/uploads/2/1.chunk"]).map
        fun c => (demoState.disk.read c).getD "") = "AABB" ∧
    String.join ((sortSlice demoEnv.pdqsort chunkLess
      ["mediatest/media/uploads/2/0.chunk", "mediatest/media/uploads/2/1.chunk"]).map
        fun c => ((mergeChunksFromDir demoEnv "mediatest/media/uploads/2"
          "mediatest/media/uploads/2/0.chunk" demoState).2.disk.read c).getD "") = "BBBB" := by
  decide

/-- Claim C2: when the payload decodes to a video id for which `IsProcessed`
returns true, `Handle` returns having made two calls only, the `IsProcessed`
query and one warning log line: no glob, no file creation, no directory
creation, no transcoder invocation, no deletion, no `MarkProcessed` and no
`RegisterError`; disk, handles and ledger are left as they were. -/
theorem Handle_processed_noop (env : Env) (msgBytes convertedFileName mergedFileName : String)
    (s : State) (thread : VideoTask)
    (hdecode : env.unmarshal msgBytes = (thread, none))
    (hdone : (IsProcessed thread.VideoId s).1 = true) :
    Handle env msgBytes convertedFileName mergedFileName s =
      { s with trace := s.trace ++
          [.isProcessed thread.VideoId, .log .warn "Video was already processed"] } ∧
    newEvents s (Handle env msgBytes convertedFileName mergedFileName s) =
      [.isProcessed thread.VideoId, .log .warn "Video was already processed"] := by
  have h : Handle env msgBytes convertedFileName mergedFileName s =
      { s with trace := s.trace ++
          [.isProcessed thread.VideoId, .log .warn "Video was already processed"] } := by
    simp only [IsProcessed] at hdone
    simp [Handle, hdecode, IsProcessed, hdone, State.emit]
  exact ⟨h, newEvents_append _ _ _ (by rw [h])⟩

/-- Witness of C2: the task of `main.go` once video 2 is in the ledger. -/
theorem Handle_processed_noop_witness :
    newEvents doneState (Handle demoEnv mainPayload "fmpeg-test.mpd" "merged-test.mp4"
      doneState) = [.isProcessed 2, .log .warn "Video was already processed"] :=
  (Handle_processed_noop demoEnv mainPayload "fmpeg-test.mpd" "merged-test.mp4" doneState
    mainTask (by decide) (by decide)).2

/-- Claim C3 (amended): when the video id is unprocessed and the merge stage
fails, a run of `Handle` makes no `MarkProcessed` call, leaves the processed
records as they were, and makes exactly two `RegisterError` calls: one by
`process` with the merge message and one by `Handle` with its own message,
both carrying the error of the merge. -/
theorem Handle_merge_failure_registers_twice (env : Env) (msgBytes convertedFileName mergedFileName : String)
    (s : State) (thread : VideoTask) (err : String)
    (hdecode : env.unmarshal msgBytes = (thread, none))
    (hnew : (IsProcessed thread.VideoId s).1 = false)
    (hmerge : (mergeChunksFromDir env thread.Path (Join [thread.Path, mergedFileName])
      ((IsProcessed thread.VideoId s).2.emit (.log .info "Merging chunks"))).1 = some err) :
    (newEvents s (Handle env msgBytes convertedFileName mergedFileName s)).filter
        Event.isRegisterError =
      [.registerError ⟨thread.VideoId,
          "Failed to merge chunks for VideoId=" ++ runeString thread.VideoId, err⟩,
       .registerError ⟨thread.VideoId,
          "Failed to process video with id=" ++ runeString thread.VideoId, err⟩] ∧
    (∀ e ∈ newEvents s (Handle env msgBytes convertedFileName mergedFileName s),
      e.isMarkProcessed = false) ∧
    (Handle env msgBytes convertedFileName mergedFileName s).processed = s.processed ∧
    (Handle env msgBytes convertedFileName mergedFileName s).errors =
      s.errors ++
        [(⟨thread.VideoId,
            "Failed to merge chunks for VideoId=" ++ runeString thread.VideoId, err⟩ :
            ErrorRecord),
         ⟨thread.VideoId,
            "Failed to process video with id=" ++ runeString thread.VideoId, err⟩].filter
          (fun r => !env.registerErrorFails r) := by
  obtain ⟨mev, ht, hall, -, hp, herr⟩ := mergeChunksFromDir_frame env thread.Path
    (Join [thread.Path, mergedFileName])
    ((IsProcessed thread.VideoId s).2.emit (.log .info "Merging chunks"))
  rcases hM : mergeChunksFromDir env thread.Path (Join [thread.Path, mergedFileName])
    ((IsProcessed thread.VideoId s).2.emit (.log .info "Merging chunks")) with ⟨r, s3⟩
  rw [hM] at ht hp herr hmerge
  simp only at hmerge ht hp herr
  subst hmerge
  have hfinal := Handle_process_fail env msgBytes convertedFileName mergedFileName s _ thread err
    hdecode hnew (process_merge_fail env thread convertedFileName mergedFileName _ s3 err hM)
  have hev : newEvents s (Handle env msgBytes convertedFileName mergedFileName s) =
      [.isProcessed thread.VideoId, .log .info "Merging chunks"] ++ mev ++
      [.log .error "Processing error",
       .registerError ⟨thread.VideoId,
          "Failed to merge chunks for VideoId=" ++ runeString thread.VideoId, err⟩,
       .log .error "Processing error",
       .registerError ⟨thread.VideoId,
          "Failed to process video with id=" ++ runeString thread.VideoId, err⟩] := by
    apply newEvents_append
    rw [hfinal, LogError_trace, LogError_trace, ht]
    simp [IsProcessed, State.emit]
  have hnone : mev.filter Event.isRegisterError = [] := by
    rw [List.filter_eq_nil_iff]
    intro e he
    simp [mergeCall_not_registerError e (hall e he)]
  refine ⟨?_, ?_, ?_, ?_⟩
  · rw [hev]
    simp [List.filter_append, hnone, List.filter, Event.isRegisterError]
  · rw [hev]
    intro e he
    simp only [List.cons_append, List.nil_append, List.mem_cons, List.mem_append,
      List.not_mem_nil, or_false] at he
    rcases he with rfl | rfl | he | rfl | rfl | rfl | rfl
    all_goals first | rfl | exact mergeCall_not_markProcessed e (hall e he)
  · rw [hfinal, (LogError_frame _ _ _ _ _).2.2, (LogError_frame _ _ _ _ _).2.2, hp]
    simp [IsProcessed, State.emit]
  · rw [hfinal, LogError_errors, LogError_errors, herr]
    simp only [IsProcessed, State.emit, List.append_assoc]
    congr 1
    simp only [List.filter_cons, List.filter_nil]
    split <;> split <;> simp

/-- Witness of C3: the merged file cannot be created. -/
theorem Handle_merge_failure_registers_twice_witness :
    (newEvents demoState (Handle createFailEnv mainPayload "fmpeg-test.mpd" "merged-test.mp4"
      demoState)).filter Event.isRegisterError =
      [.registerError ⟨2, "Failed to merge chunks for VideoId=\x02",
          "failed to create a file: permission denied"⟩,
       .registerError ⟨2, "Failed to process video with id=\x02",
          "failed to create a file: permission denied"⟩] :=
  (Handle_merge_failure_registers_twice createFailEnv mainPayload "fmpeg-test.mpd"
    "merged-test.mp4" demoState mainTask "failed to create a file: permission denied"
    (by decide) (by decide) (by decide)).1.trans (by decide)

/-- Counterexample to C3 as stated: video 2 is unprocessed, the merge stage
fails, and the run makes two `RegisterError` calls and appends two Error
Records, not one. -/
theorem Handle_merge_failure_not_once :
    (IsProcessed 2 demoState).1 = false ∧
    (mergeStage createFailEnv mainTask "merged-test.mp4" demoState).1 =
      some "failed to create a file: permission denied" ∧
    (newEvents demoState (Handle createFailEnv mainPayload "fmpeg-test.mpd" "merged-test.mp4"
      demoState)).countP Event.isRegisterError = 2 ∧
    (Handle createFailEnv mainPayload "fmpeg-test.mpd" "merged-test.mp4"
      demoState).errors.length = 2 := by
  decide

/-- Claim C4 (amended): when the payload fails to decode, `Handle` makes exactly
two calls, an error log line and one `RegisterError` carrying the decode error
(through `LogError`); it makes no `IsProcessed` and no `MarkProcessed` call and
no filesystem call, and leaves disk, handles and processed records as they
were. -/
theorem Handle_malformed_payload (env : Env) (msgBytes convertedFileName mergedFileName : String)
    (s : State) (thread : VideoTask) (err : String)
    (hdecode : env.unmarshal msgBytes = (thread, some err)) :
    newEvents s (Handle env msgBytes convertedFileName mergedFileName s) =
      [.log .error "Processing error",
       .registerError ⟨thread.VideoId, "Failed to unmarshal task", err⟩] ∧
    (Handle env msgBytes convertedFileName mergedFileName s).disk = s.disk ∧
    (Handle env msgBytes convertedFileName mergedFileName s).handles = s.handles ∧
    (Handle env msgBytes convertedFileName mergedFileName s).processed = s.processed ∧
    (Handle env msgBytes convertedFileName mergedFileName s).errors =
      s.errors ++ [(⟨thread.VideoId, "Failed to unmarshal task", err⟩ : ErrorRecord)].filter
        (fun r => !env.registerErrorFails r) := by
  have h : Handle env msgBytes convertedFileName mergedFileName s =
      LogError env thread "Failed to unmarshal task" err s := by
    simp [Handle, hdecode]
  rw [h]
  exact ⟨newEvents_append _ _ _ (LogError_trace _ _ _ _ _), (LogError_frame _ _ _ _ _).1,
    (LogError_frame _ _ _ _ _).2.1, (LogError_frame _ _ _ _ _).2.2, LogError_errors _ _ _ _ _⟩

/-- Witness of C4: a payload whose `video_id` is a string. -/
theorem Handle_malformed_payload_witness :
    newEvents demoState (Handle demoEnv badPayload "fmpeg-test.mpd" "merged-test.mp4"
      demoState) =
      [.log .error "Processing error",
       .registerError ⟨0, "Failed to unmarshal task",
         "json: cannot unmarshal string into Go struct field VideoTask.video_id of type int"⟩] :=
  (Handle_malformed_payload demoEnv badPayload "fmpeg-test.mpd" "merged-test.mp4" demoState
    ⟨0, "mediatest/media/uploads/2"⟩
    "json: cannot unmarshal string into Go struct field VideoTask.video_id of type int"
    (by decide)).1

/-- Counterexample to C4 as stated: the payload fails to decode and `Handle`
still calls `RegisterError`, which appends an Error Record to the ledger. -/
theorem Handle_malformed_registers_error :
    (demoEnv.unmarshal badPayload).2 ≠ none ∧
    Event.registerError ⟨0, "Failed to unmarshal task",
        "json: cannot unmarshal string into Go struct field VideoTask.video_id of type int"⟩ ∈
      newEvents demoState (Handle demoEnv badPayload "fmpeg-test.mpd" "merged-test.mp4"
        demoState) ∧
    (Handle demoEnv badPayload "fmpeg-test.mpd" "merged-test.mp4" demoState).errors.length = 1 := by
  decide

/-- Claim C6 (amended): `getNumberFromFile` returns the value of the first run
of decimal digits of the base name of the path when the base name has a digit
and that value fits in an `int`, and `-1` otherwise; so it returns `-1` if and
only if the base name has no digit or its first digit run exceeds the largest
`int`. -/
theorem getNumberFromFile_first_digit_run (filename : String) :
    getNumberFromFile filename =
      (if hasDigit (Base filename) = true ∧
          decimalValue (firstDigitRun (Base filename)) ≤ maxInt
       then (decimalValue (firstDigitRun (Base filename)) : Int) else -1) ∧
    (getNumberFromFile filename = -1 ↔
      (hasDigit (Base filename) = false ∨
        maxInt < decimalValue (firstDigitRun (Base filename)))) :=
  ⟨getNumberFromFile_eq filename, getNumberFromFile_neg_one_iff filename⟩

/-- Counterexample to C6 as stated: the base name has a digit run, of twenty
nines, and `getNumberFromFile` returns `-1`, not its value. -/
theorem getNumberFromFile_overflow :
    hasDigit (Base "uploads/7/99999999999999999999.chunk") = true ∧
    decimalValue (firstDigitRun (Base "uploads/7/99999999999999999999.chunk")) =
      99999999999999999999 ∧
    getNumberFromFile "uploads/7/99999999999999999999.chunk" = -1 := by
  decide

/-- Claim C7 (amended): in the order in which `mergeChunksFromDir` copies
chunks, no chunk whose base name has a first digit run that fits in an `int`
comes before a chunk whose base name has no digit. -/
theorem mergeChunksFromDir_unnumbered_first (env : Env) (inDir outFile : String) (s : State)
    (hsort : SortContract env.pdqsort) :
    (writeOrder (newEvents s (mergeChunksFromDir env inDir outFile s).2)).Pairwise
      (fun a b => ¬ ((hasDigit (Base a) = true ∧
          decimalValue (firstDigitRun (Base a)) ≤ maxInt) ∧ hasDigit (Base b) = false)) := by
  obtain ⟨evs, ht, -, hsub, -, -⟩ := mergeChunksFromDir_frame env inDir outFile s
  rw [newEvents_append _ _ _ ht]
  have hsorted : ∀ l : List String,
      l.Pairwise (fun a b => getNumberFromFile a ≤ getNumberFromFile b) →
      l.Pairwise (fun a b => ¬ ((hasDigit (Base a) = true ∧
          decimalValue (firstDigitRun (Base a)) ≤ maxInt) ∧ hasDigit (Base b) = false)) := by
    intro l hl
    refine hl.imp ?_
    intro a b hab hcon
    have ha : getNumberFromFile a = (decimalValue (firstDigitRun (Base a)) : Int) := by
      rw [getNumberFromFile_eq, if_pos hcon.1]
    have hb : getNumberFromFile b = -1 :=
      (getNumberFromFile_neg_one_iff b).mpr (Or.inl hcon.2)
    omega
  refine (hsorted _ ?_).sublist hsub
  cases env.glob (Join [inDir, "*.chunk"]) with
  | error err => exact List.Pairwise.nil
  | ok chunks => exact sortSlice_sorted _ hsort _

/-- Witness of C7: `intro.chunk` is copied before `3.chunk` and `12.chunk`. -/
theorem mergeChunksFromDir_unnumbered_first_witness :
    writeOrder (newEvents mixedState
      (mergeChunksFromDir mixedEnv "uploads/7" "uploads/7/merged.mp4" mixedState).2) =
      ["uploads/7/intro.chunk", "uploads/7/3.chunk", "uploads/7/12.chunk"] ∧
    (writeOrder (newEvents mixedState
      (mergeChunksFromDir mixedEnv "uploads/7" "uploads/7/merged.mp4" mixedState).2)).Pairwise
      (fun a b => ¬ ((hasDigit (Base a) = true ∧
          decimalValue (firstDigitRun (Base a)) ≤ maxInt) ∧ hasDigit (Base b) = false)) :=
  ⟨by decide, mergeChunksFromDir_unnumbered_first mixedEnv "uploads/7" "uploads/7/merged.mp4"
    mixedState insertionSort_contract⟩

/-- Counterexample to C7 as stated: the chunk named with twenty nines has a
digit run in its base name and is copied before `a.chunk`, whose base name has
no digit. -/
theorem mergeChunksFromDir_overflow_before_unnumbered :
    writeOrder (newEvents overflowState
      (mergeChunksFromDir overflowEnv "uploads/7" "uploads/7/merged.mp4" overflowState).2) =
      ["uploads/7/99999999999999999999.chunk", "uploads/7/a.chunk"] ∧
    hasDigit (Base "uploads/7/99999999999999999999.chunk") = true ∧
    hasDigit (Base "uploads/7/a.chunk") = false := by
  decide

/-- Evaluation for C9: `1.chunk` is a sub-directory of the source directory, so
copying it fails. `mergeChunksFromDir` returns the error with no writable
handle left open, and with the read-only handle of `1.chunk` still open. -/
theorem mergeChunksFromDir_leaks_chunk_handle :
    (mergeChunksFromDir demoEnv "mediatest/media/uploads/2"
      "mediatest/media/uploads/2/merged-test.mp4" subdirState).1 =
      some ("failed to write chunk mediatest/media/uploads/2/1.chunk: " ++
        "read mediatest/media/uploads/2/1.chunk: is a directory") ∧
    (mergeChunksFromDir demoEnv "mediatest/media/uploads/2"
      "mediatest/media/uploads/2/merged-test.mp4" subdirState).2.handles =
      [⟨"mediatest/media/uploads/2/1.chunk", false⟩] := by
  decide

/-- Claim C10: when the glob finds no chunk in the source directory and the
output file can be created, `mergeChunksFromDir` returns no error and leaves an
empty output file, and `process` goes on: it asks for the output directory and,
when that succeeds, invokes the transcoder. -/
theorem mergeChunksFromDir_empty_dir (env : Env) (inDir outFile : String) (s : State)
    (hglob : env.glob (Join [inDir, "*.chunk"]) = .ok [])
    (hcreate : env.createErr outFile = none) :
    mergeChunksFromDir env inDir outFile s =
      (none, { s with
        disk := (s.disk.create outFile).1,
        trace := s.trace ++ [.glob (Join [inDir, "*.chunk"]), .create outFile,
          .close outFile] }) ∧
    (mergeChunksFromDir env inDir outFile s).2.disk.read outFile = some "" ∧
    ∀ (thread : VideoTask) (convertedFileName mergedFileName : String),
      thread.Path = inDir → Join [thread.Path, mergedFileName] = outFile →
      Event.mkdirAll (Join [thread.Path, "mpeg-dash"]) ∈
        newEvents s (process env thread convertedFileName mergedFileName s).2 ∧
      (env.mkdirAllErr (Join [thread.Path, "mpeg-dash"]) = none →
        Event.command "ffmpeg" ["-i", Join [thread.Path, mergedFileName], "-f", "dash",
            Join [Join [thread.Path, "mpeg-dash"], convertedFileName]] ∈
          newEvents s (process env thread convertedFileName mergedFileName s).2) := by
  have hmerge : ∀ s : State,
      mergeChunksFromDir env inDir outFile s =
      (none, { s with
        disk := (s.disk.create outFile).1,
        trace := s.trace ++ [.glob (Join [inDir, "*.chunk"]), .create outFile,
          .close outFile] }) := by
    intro s
    simp [mergeChunksFromDir, hglob, hcreate, sortSlice, insertionSortLessFunc, copyChunks,
      State.emit]
  refine ⟨hmerge s, by rw [hmerge s]; exact Disk.read_create_self _ _, ?_⟩
  intro thread convertedFileName mergedFileName hpath hmerged
  subst hpath
  subst hmerged
  constructor
  · obtain ⟨tail, ht⟩ := process_reaches_mkdir env thread convertedFileName mergedFileName s _
      (hmerge _)
    rw [newEvents_append s _ _ (by rw [ht]; simp only [State.emit, List.append_assoc]; rfl)]
    simp
  · intro hdir
    obtain ⟨tail, ht⟩ := process_reaches_command env thread convertedFileName mergedFileName s _
      (hmerge _) hdir
    rw [newEvents_append s _ _ (by rw [ht]; simp only [State.emit, List.append_assoc]; rfl)]
    simp [ffmpegArgs]

/-- Witness of C10: the upload directory of video 2 without any chunk. -/
theorem mergeChunksFromDir_empty_dir_witness :
    (mergeChunksFromDir emptyEnv "mediatest/media/uploads/2"
      "mediatest/media/uploads/2/merged-test.mp4" demoState).1 = none ∧
    (mergeChunksFromDir emptyEnv "mediatest/media/uploads/2"
      "mediatest/media/uploads/2/merged-test.mp4" demoState).2.disk.read
      "mediatest/media/uploads/2/merged-test.mp4" = some "" ∧
    Event.command "ffmpeg" ["-i", "mediatest/media/uploads/2/merged-test.mp4", "-f", "dash",
        "mediatest/media/uploads/2/mpeg-dash/fmpeg-test.mpd"] ∈
      newEvents demoState (process emptyEnv mainTask "fmpeg-test.mpd" "merged-test.mp4"
        demoState).2 :=
  have h := mergeChunksFromDir_empty_dir emptyEnv "mediatest/media/uploads/2"
    "mediatest/media/uploads/2/merged-test.mp4" demoState (by rfl) rfl
  ⟨congrArg Prod.fst h.1, h.2.1,
    (h.2.2 mainTask "fmpeg-test.mpd" "merged-test.mp4" rfl (by decide)).2 rfl⟩

end Converter
